import Mathlib

/-!
Verification of the JIT compiler and runtime glue layer in src/compile.cpp
(avian). Shallow embedding: the data structures and the algorithms the
claims are about are translated into executable Lean definitions, and each
claim is settled as a theorem about those definitions. Machine integers are
modelled as Nat with explicit reductions modulo 2^32 or 2^64 where the C
code computes on fixed-width unsigned values.
-/

/-- Machine word size in bytes. The source is built for x86-64
(`BytesPerWord == 8`; see the `__x86_64__` conditional in
`Buffer::appendAddress`). Functions whose behaviour the claims compare
across word sizes take the word size as an explicit parameter instead. -/
def BytesPerWord : Nat := 8

/-! ## Frame-slot constants (compile.cpp lines 21-24) -/

/-- Offset of the thread-pointer slot: `BytesPerWord * 2`. -/
def FrameThread : Nat := BytesPerWord * 2

/-- Offset of the method-pointer slot: `FrameThread + BytesPerWord`. -/
def FrameMethod : Nat := FrameThread + BytesPerWord

/-- Line 23 of the source reads `const unsigned FrameNext = FrameNext +
BytesPerWord;`. The initializer reads `FrameNext` itself; the variable has
static storage, so at that point it holds its zero-initialized value 0, and
the constant ends up `0 + BytesPerWord`. -/
def FrameNext : Nat := 0 + BytesPerWord

/-- `BytesPerWord * 3` (line 24). -/
def FrameFootprint : Nat := BytesPerWord * 3

/-- The slot index `frameNext` reads from the frame base:
`static_cast<void**>(frameBase(frame))[FrameNext / BytesPerWord]`
(line 197). -/
def frameNextIndex : Nat := FrameNext / BytesPerWord

/-- The slot index `frameMethod` reads from the frame base (line 203). -/
def frameMethodIndex : Nat := FrameMethod / BytesPerWord

/-- The slot index `frameReturnAddress` reads from the frame base:
`static_cast<void**>(frameBase(frame))[1]` (line 215). -/
def frameReturnAddressIndex : Nat := 1

/-! ## throw_ (compile.cpp lines 285-294)

Objects are modelled as `Option Nat`: `none` is the null reference and
`some n` a non-null object with identity `n`. The stored pending exception
is `Option (Nat ⊕ Unit)`: `none` when the thread's exception field is set
to null, `some (Sum.inl n)` when it is set to the argument object `n`, and
`some (Sum.inr ())` when it is set to a freshly made
`NullPointerException`. -/

/-- The value `throw_` stores into `t->exception` before unwinding:
`if (o) { t->exception = makeNullPointerException(t); } else
{ t->exception = o; }` (lines 288-292). -/
def throwStoredException (o : Option Nat) : Option (Nat ⊕ Unit) :=
  if o.isSome then some (Sum.inr ()) else o.map Sum.inl

/-! ## anewarray / newarray negative-length checks -/

/-- What the code emitted for an array-allocation bytecode does at run time
with the popped length. -/
inductive ArrayAllocOutcome where
  | throwNegativeArraySize : ArrayAllocOutcome
  | allocate : ArrayAllocOutcome
deriving DecidableEq

/-- Run-time branch structure of the `anewarray` template (lines
1339-1351): `pop(rax); cmp(0, rax); jle(nonnegative);` then the
fall-through path calls `throwNew(NegativeArraySizeException)` and the
`nonnegative` label leads to `makeBlankObjectArray`. `jle` takes the jump
exactly when the popped length is ≤ 0. -/
def anewarrayOutcome (length : Int) : ArrayAllocOutcome :=
  if length ≤ 0 then ArrayAllocOutcome.allocate
  else ArrayAllocOutcome.throwNegativeArraySize

/-- Run-time branch structure of the `newarray` template (lines
1878-1889): `pop(rax); cmp(0, rax); jge(nonnegative);` then the
fall-through path calls `throwNew(NegativeArraySizeException)` and the
`nonnegative` label leads to `makeBlankArray`. `jge` takes the jump exactly
when the popped length is ≥ 0. -/
def newarrayOutcome (length : Int) : ArrayAllocOutcome :=
  if 0 ≤ length then ArrayAllocOutcome.allocate
  else ArrayAllocOutcome.throwNegativeArraySize

/-! ## Buffer (compile.cpp lines 28-122)

`data` is the list of bytes appended so far (the source's
`data[0..position)`; `position = data.length`), `capacity` and
`minimumCapacity` mirror the members of the same names. -/

structure Buffer where
  data : List Nat
  capacity : Nat
  minimumCapacity : Nat
deriving DecidableEq

/-- The grown capacity `Buffer::ensure` computes on line 46:
`max(position + space, max(minimumCapacity, capacity * 2))`. -/
def Buffer.newCapacityOnGrowth (b : Buffer) (space : Nat) : Nat :=
  max (b.data.length + space) (max b.minimumCapacity (b.capacity * 2))

/-- `Buffer::ensure` (lines 44-55). The source computes `newCapacity`,
allocates a fresh backing store of that size, copies the `position`
already-appended bytes into it when `data` is non-null, frees the old
store, and assigns `data = newData` — but never assigns the `capacity`
member. In this model `data` is the list of appended bytes, so the
allocate-and-copy step reproduces `data` unchanged; `capacity` is left
untouched exactly as in the source. -/
def Buffer.ensure (b : Buffer) (space : Nat) : Buffer :=
  if b.data.length + space > b.capacity then
    { data := b.data, capacity := b.capacity,
      minimumCapacity := b.minimumCapacity }
  else b

/-- `Buffer::append` (lines 57-60): one byte. -/
def Buffer.append (b : Buffer) (v : Nat) : Buffer :=
  let b2 := b.ensure 1
  { b2 with data := b2.data ++ [v % 256] }

/-- `Buffer::append2` (lines 62-66): two bytes, little-endian. -/
def Buffer.append2 (b : Buffer) (v : Nat) : Buffer :=
  let b2 := b.ensure 2
  { b2 with data := b2.data ++ [v % 256, v / 256 % 256] }

/-- `Buffer::append4` (lines 68-72): four bytes, little-endian. -/
def Buffer.append4 (b : Buffer) (v : Nat) : Buffer :=
  let b2 := b.ensure 4
  { b2 with
    data := b2.data ++
      [v % 256, v / 256 % 256, v / 2 ^ 16 % 256, v / 2 ^ 24 % 256] }

/-- `Buffer::appendAddress` (lines 96-105) on x86-64: `append4(v)` then
`append4(v >> 32)`, eight bytes in all. -/
def Buffer.appendAddress (b : Buffer) (v : Nat) : Buffer :=
  (b.append4 (v % 2 ^ 32)).append4 (v / 2 ^ 32)

/-- `Buffer::get2` (lines 84-88); `none` models the assertion failure when
the offset is out of the appended region. -/
def Buffer.get2 (b : Buffer) (offset : Nat) : Option Nat :=
  if offset + 2 ≤ b.data.length then
    some (b.data.getD offset 0 + 256 * b.data.getD (offset + 1) 0)
  else none

/-- `Buffer::get4` (lines 90-94). -/
def Buffer.get4 (b : Buffer) (offset : Nat) : Option Nat :=
  if offset + 4 ≤ b.data.length then
    some (b.data.getD offset 0 + 256 * b.data.getD (offset + 1) 0 +
      2 ^ 16 * b.data.getD (offset + 2) 0 + 2 ^ 24 * b.data.getD (offset + 3) 0)
  else none

/-! ## poolReference (compile.cpp lines 2192-2200)

The pool-register reload emission (lines 2193-2197) touches only the code
buffer; the returned offset is computed from the pool buffer alone:
`pool.appendAddress(o); return pool.length() + BytesPerWord;`. -/

/-- `Compiler::poolReference`: appends the object address to the pool
buffer, then returns the buffer's length (now including the fresh entry)
plus one word. Result: the updated pool buffer and the returned offset. -/
def poolReference (pool : Buffer) (o : Nat) : Buffer × Nat :=
  ((pool.appendAddress o), (pool.appendAddress o).data.length + BytesPerWord)

/-! ## ArgumentList (compile.cpp lines 2296-2454)

`array` and `objectMask` are the caller-supplied stack arrays; an entry is
`none` while the constructor has not yet written it (the C arrays are
uninitialized stack memory). -/

structure ArgState where
  array : Nat → Option Nat
  objectMask : Nat → Option Bool
  position : Nat

/-- A fresh, entirely unwritten argument block. -/
def ArgState.empty : ArgState :=
  { array := fun _ => none, objectMask := fun _ => none, position := 0 }

/-- `ArgumentList::addObject` (lines 2430-2434): writes the value word and
`objectMask[position] = true`, then advances by one slot. -/
def ArgState.addObject (s : ArgState) (v : Nat) : ArgState :=
  { array := fun i => if i = s.position then some v else s.array i,
    objectMask := fun i => if i = s.position then some true else s.objectMask i,
    position := s.position + 1 }

/-- `ArgumentList::addInt` (lines 2436-2440): writes the value word and
`objectMask[position] = false`, then advances by one slot. -/
def ArgState.addInt (s : ArgState) (v : Nat) : ArgState :=
  { array := fun i => if i = s.position then some (v % 2 ^ 32) else s.array i,
    objectMask := fun i => if i = s.position then some false else s.objectMask i,
    position := s.position + 1 }

/-- `ArgumentList::addLong` (lines 2442-2447): `memcpy` writes the two
value words, then the source executes `objectMask[position] = false;`
twice — both assignments target index `position`, and index
`position + 1` is never written — and advances by two slots. -/
def ArgState.addLong (s : ArgState) (v : Nat) : ArgState :=
  { array := fun i =>
      if i = s.position then some (v % 2 ^ 32)
      else if i = s.position + 1 then some (v / 2 ^ 32 % 2 ^ 32)
      else s.array i,
    objectMask := fun i =>
      if i = s.position then some false
      else if i = s.position then some false
      else s.objectMask i,
    position := s.position + 2 }

/-- The prologue of the varargs `ArgumentList` constructor (lines
2308-2310) followed by the walk of the spec string `(J)V` for a static
method (lines 2318, 2353-2356): `addInt(thread); addObject(0);
addInt(frame); addLong(argument)`. -/
def argumentListLongJV (tid frameId v : Nat) : ArgState :=
  (((ArgState.empty.addInt tid).addObject 0).addInt frameId).addLong v

/-! ## findExceptionHandler (compile.cpp lines 225-254)

A `NativeExceptionHandler` carries machine offsets `start`/`stop`
(`nativeExceptionHandlerStart`/`End`) and the `catchType` field (0 for a
finally handler). The pending-exception type test
`instanceOf(t, catchType, t->exception)` and the catch-type resolution from
the pool (lines 239-245) involve the external object model; they are
abstracted as the oracle `instOf : Nat → Bool`, a function of the non-zero
catch-type field. -/

structure NativeExceptionHandler where
  start : Nat
  stop : Nat
  catchType : Nat
deriving DecidableEq

/-- The fault offset biased by -1, computed on the C `unsigned`:
`offset - 1` wraps modulo 2^32 when `offset = 0`. -/
def biasedOffset (offset : Nat) : Nat := (offset + (2 ^ 32 - 1)) % 2 ^ 32

/-- The loop of `findExceptionHandler` (lines 231-253) over the handler
table in table order: the interval test `offset - 1 >= start and
offset - 1 < end`, and inside it the catch-type test `catchType == 0 or
instanceOf(...)`; the first entry passing both is returned, and the loop
falls through to `return 0` (`none`) otherwise. -/
def findExceptionHandler (instOf : Nat → Bool) (offset : Nat) :
    List NativeExceptionHandler → Option NativeExceptionHandler
  | [] => none
  | h :: rest =>
    if h.start ≤ biasedOffset offset ∧ biasedOffset offset < h.stop then
      if h.catchType = 0 ∨ instOf h.catchType = true then some h
      else findExceptionHandler instOf offset rest
    else findExceptionHandler instOf offset rest

/-- The claim's per-entry match condition: the biased fault offset lies in
`[start, stop)` and the catch type is 0 or the pending exception is an
instance of it. -/
def handlerMatches (instOf : Nat → Bool) (offset : Nat)
    (h : NativeExceptionHandler) : Prop :=
  (h.start ≤ biasedOffset offset ∧ biasedOffset offset < h.stop) ∧
  (h.catchType = 0 ∨ instOf h.catchType = true)

instance (instOf : Nat → Bool) (offset : Nat) (h : NativeExceptionHandler) :
    Decidable (handlerMatches instOf offset h) := by
  unfold handlerMatches; infer_instance

/-! ## Bytecode-IP to machine-IP map (compile.cpp lines 1139-1141 and
2051-2068)

The parallel buffers `javaIPs`/`machineIPs` are modelled as one list of
`(bytecode IP, machine offset)` pairs; entry `i` stands for
`javaIPs.get2(i * 2)` paired with `machineIPs.get4(i * 4)`. -/

/-- The map-building step of the compile loop: each iteration appends
`(ip, code.length())` (lines 1140-1141) and then advances `ip` by the
instruction's size and the code buffer by the bytes the template emits.
`steps` lists those two sizes per compiled instruction. -/
def buildIpMap : List (Nat × Nat) → Nat → Nat → List (Nat × Nat)
  | [], _, _ => []
  | (isize, esize) :: rest, ip, off =>
    (ip, off) :: buildIpMap rest (ip + isize) (off + esize)

/-- The binary-search loop of `Compiler::machineIpForJavaIp` (lines
2052-2067): `for (span = top - bottom; span; span = top - bottom)` with
`middle = bottom + span / 2`; key less than the middle key shrinks `top`
to `middle`, greater moves `bottom` past it, equal returns the parallel
machine offset. Falling out of the loop aborts (`none`). -/
def bsearchLoop (ips : List (Nat × Nat)) (key : Nat) (bottom top : Nat) :
    Option Nat :=
  if top ≤ bottom then none
  else if key < (ips.getD (bottom + (top - bottom) / 2) (0, 0)).1 then
    bsearchLoop ips key bottom (bottom + (top - bottom) / 2)
  else if (ips.getD (bottom + (top - bottom) / 2) (0, 0)).1 < key then
    bsearchLoop ips key (bottom + (top - bottom) / 2 + 1) top
  else some (ips.getD (bottom + (top - bottom) / 2) (0, 0)).2
termination_by top - bottom
decreasing_by
  · omega
  · omega

/-- `Compiler::machineIpForJavaIp`: binary search over the whole map
(`bottom = 0`, `top = javaIPs.length() / 2`). -/
def machineIpForJavaIp (ips : List (Nat × Nat)) (key : Nat) : Option Nat :=
  bsearchLoop ips key 0 ips.length

/-! ## invoke (compile.cpp lines 2456-2508)

The thread fields the claim is about: `frame` and the `reference` chain.
The chain is modelled as the list of node identities from the head
(`t->reference`) outward; `dispose(t, t->reference)` removes the head. -/

structure VMThreadState where
  frame : Nat
  reference : List Nat
deriving DecidableEq

/-- Modelled from the spec: `vmInvoke` is external assembly, not part of
src/. Per the spec (section 3, Reference stack; section 4.8), the code run
during the call may move the thread's frame pointer and pushes every local
reference node it creates onto the head of the thread's chain, so on
return the chain is the freshly created nodes `newRefs` in front of the
entry chain. -/
def vmInvokeEffect (s : VMThreadState) (newFrame : Nat)
    (newRefs : List Nat) : VMThreadState :=
  { frame := newFrame, reference := newRefs ++ s.reference }

/-- The restore loop of `invoke` (lines 2473-2475):
`while (t->reference != reference) dispose(t, t->reference);` — pops the
head of the chain until it equals the snapshot taken before `vmInvoke`.
`none` models disposing past the end of the chain (a null dereference),
which the loop would hit only if the snapshot pointer were no longer in
the chain. -/
def disposeUntil (saved : List Nat) : List Nat → Option (List Nat)
  | [] => if ([] : List Nat) = saved then some [] else none
  | x :: rest =>
    if x :: rest = saved then some (x :: rest) else disposeUntil saved rest

/-- `invoke` (lines 2456-2508), restricted to its effect on the thread
state: snapshot `frame` and `reference` (lines 2466-2467), run `vmInvoke`,
dispose the references created during the call (lines 2473-2475) and
restore the frame (line 2476). The return-value boxing that follows reads
neither field. -/
def invokeBridge (s : VMThreadState) (newFrame : Nat)
    (newRefs : List Nat) : Option VMThreadState :=
  match disposeUntil s.reference (vmInvokeEffect s newFrame newRefs).reference with
  | some r => some { frame := s.frame, reference := r }
  | none => none

/-! ## alignedMov and updateCaller (compile.cpp lines 640-653 and
2258-2282)

Byte sequences are lists of byte values. The word size `w` is a parameter
here because the padding formula differs between the 32-bit and 64-bit
builds. -/

/-- The bytes of `mov imm, reg` that precede the immediate: the REX prefix
plus the opcode on the 64-bit build (`BytesPerWord == 8 ? 2 : 1` in
`alignedMov`, line 647), just the opcode on 32-bit. -/
def movImmHeaderLen (w : Nat) : Nat := if w = 8 then 2 else 1

/-- The nop-padding loop of `Assembler::alignedMov` (lines 647-649):
`while ((code.length() + header) % BytesPerWord) nop();` — it appends one
`nop` byte at a time until the position the immediate will occupy is
word-aligned. The loop runs fewer than `w` iterations, so fuel `w`
reproduces it exactly; the result is the code length after padding. -/
def alignedMovPad (w : Nat) : Nat → Nat → Nat
  | 0, n => n
  | fuel + 1, n =>
    if (n + movImmHeaderLen w) % w = 0 then n
    else alignedMovPad w fuel (n + 1)

/-- The machine offset of the immediate (address) field emitted by
`alignedMov` when the code buffer holds `n` bytes: the padded length plus
the REX/opcode header (lines 650-652 emit `rex(); 0xb8|dst;` and then the
address). -/
def alignedMovImmediateOffset (w n : Nat) : Nat :=
  alignedMovPad w w n + movImmHeaderLen w

/-- The byte sequence of `Assembler::mov(uintptr_t, Register)` (lines
640-644): REX prefix (64-bit only), opcode `0xb8 | dst`, then the `w`
address bytes. -/
def movImmBytes (w : Nat) (addr : List Nat) (dst : Nat) : List Nat :=
  (if w = 8 then [0x48] else []) ++ (0xb8 + dst) :: addr

/-- The byte sequence of `Assembler::call(Register)` (lines 895-898). -/
def callRegBytes (dst : Nat) : List Nat := [0xff, 0xd0 + dst]

/-- In-place overwrite of `repl.length` bytes at `offset`
(`*reinterpret_cast<void**>(caller + offset) = ...`, lines 2279-2280). -/
def patchBytes (bytes : List Nat) (offset : Nat) (repl : List Nat) :
    List Nat :=
  bytes.take offset ++ repl ++ bytes.drop (offset + repl.length)

/-- `updateCaller` (lines 2258-2282): emit the reference sequence
`mov stub, rax; call rax`, take `offset = mov_length - BytesPerWord` (the
position of the immediate inside the sequence), read the same number of
bytes ending at the caller's saved return address, and patch the immediate
with the new entry address only when those bytes equal the reference
sequence byte for byte; otherwise do nothing (`none`). -/
def updateCallerPatch (w : Nat) (stubAddr newAddr callerBytes : List Nat) :
    Option (List Nat) :=
  if callerBytes = movImmBytes w stubAddr 0 ++ callRegBytes 0 then
    some (patchBytes callerBytes ((movImmBytes w stubAddr 0).length - w) newAddr)
  else none

/-! ## Helper lemmas -/

/-- In the model `Buffer.ensure` changes nothing: the reallocation copies
the appended bytes verbatim, and the `capacity` member is — faithfully to
the source — not assigned. -/
theorem Buffer.ensure_eq (b : Buffer) (space : Nat) : b.ensure space = b := by
  unfold Buffer.ensure
  split <;> rfl

theorem Buffer.append4_data (b : Buffer) (v : Nat) :
    (b.append4 v).data =
      b.data ++ [v % 256, v / 256 % 256, v / 2 ^ 16 % 256, v / 2 ^ 24 % 256] := by
  simp [Buffer.append4, Buffer.ensure_eq]

theorem Buffer.appendAddress_length (b : Buffer) (v : Nat) :
    (b.appendAddress v).data.length = b.data.length + 8 := by
  simp [Buffer.appendAddress, Buffer.append4_data]

theorem disposeUntil_append (newRefs saved : List Nat) :
    disposeUntil saved (newRefs ++ saved) = some saved := by
  induction newRefs with
  | nil =>
    cases saved with
    | nil => simp [disposeUntil]
    | cons x r => simp [disposeUntil]
  | cons a rest ih =>
    by_cases h : a :: (rest ++ saved) = saved
    · simp [disposeUntil, h]
    · simp [disposeUntil, h, ih]

/-! ## Claim theorems (part 1) -/

/-- C1: the claim states the intended behaviour — pending exception set to
the argument when it is non-null and to a fresh NullPointerException when
it is null. The code has the branches swapped: for a non-null argument it
stores a fresh NullPointerException (not the argument), and for a null
argument it stores null. -/
theorem throw_branches_swapped :
    throwStoredException (some 7) = some (Sum.inr ()) ∧
    throwStoredException (some 7) ≠ some (Sum.inl 7) ∧
    throwStoredException none = none := by decide

/-- C2: the claim states `FrameNext = FrameMethod + BytesPerWord` (slot 4
from the frame base). The self-referential initializer instead yields
`FrameNext = BytesPerWord`, so `frameNext` reads slot 1 — the very slot
`frameReturnAddress` reads — rather than the previous-frame slot. -/
theorem frameNext_constant_selfreference :
    FrameNext = BytesPerWord ∧
    FrameMethod + BytesPerWord = 4 * BytesPerWord ∧
    FrameNext ≠ FrameMethod + BytesPerWord ∧
    frameNextIndex = frameReturnAddressIndex ∧
    frameNextIndex ≠ FrameMethod / BytesPerWord + 1 := by decide

/-- C3: the claim states that both array templates throw
NegativeArraySizeException exactly for negative lengths. The `newarray`
template does (`jge`), but the `anewarray` template uses `jle`, so it
throws for the positive length 1 and allocates for the negative
length -1. -/
theorem anewarray_branch_reversed :
    anewarrayOutcome 1 = ArrayAllocOutcome.throwNegativeArraySize ∧
    anewarrayOutcome (-1) = ArrayAllocOutcome.allocate ∧
    newarrayOutcome (-1) = ArrayAllocOutcome.throwNegativeArraySize ∧
    newarrayOutcome 1 = ArrayAllocOutcome.allocate := by decide

/-- C5: the claim states that on growth the recorded capacity is updated.
After appending one byte to a fresh buffer with minimum capacity 16 the
growth path ran (it computed new capacity 16), yet the recorded capacity
is still 0; the appended contents themselves are preserved, and a get4
after an append4 does return the appended value. -/
theorem buffer_capacity_never_updated :
    ((Buffer.mk [] 0 16).append 5).capacity = 0 ∧
    Buffer.newCapacityOnGrowth (Buffer.mk [] 0 16) 1 = 16 ∧
    ((Buffer.mk [] 0 16).append 5).data = [5] ∧
    ((Buffer.mk [] 0 16).append4 300).get4 0 = some 300 := by decide

/-- C6: the claim states that both word slots of a long argument get their
object-mask entries written. For `(J)V` invoked statically, the long
occupies slots 3 and 4; slot 3 is written false, but slot 4 is never
written (the source assigns `objectMask[position]` twice instead of
`position` and `position + 1`). The single-slot entries (thread, reserved
method slot, frame) are all written. -/
theorem addLong_second_mask_slot_unwritten :
    (argumentListLongJV 3 9 77).objectMask 3 = some false ∧
    (argumentListLongJV 3 9 77).objectMask 4 = none ∧
    (argumentListLongJV 3 9 77).position = 5 ∧
    (argumentListLongJV 3 9 77).objectMask 0 = some false ∧
    (argumentListLongJV 3 9 77).objectMask 1 = some true ∧
    (argumentListLongJV 3 9 77).objectMask 2 = some false := by decide

/-- C4 (counterexample): on an empty pool buffer, `poolReference` returns
`2 * BytesPerWord` = 16, not the prior length plus one word (8): the
source appends first and only then reads `pool.length()`. -/
theorem poolReference_not_prior_length :
    (poolReference (Buffer.mk [] 0 256) 7).2 = 2 * BytesPerWord ∧
    2 * BytesPerWord ≠ (Buffer.mk [] 0 256 : Buffer).data.length + BytesPerWord := by
  decide

/-- C4 (amended): `poolReference` returns the pool buffer's length in
bytes as it is after the append — equivalently, the length before the
append plus two machine words — and two calls whose appends are adjacent
return offsets that differ by exactly one word. -/
theorem poolReference_offset_amended (pool : Buffer) (o o2 : Nat) :
    (poolReference pool o).2 = pool.data.length + 2 * BytesPerWord ∧
    (poolReference (poolReference pool o).1 o2).2
      = (poolReference pool o).2 + BytesPerWord := by
  simp [poolReference, Buffer.appendAddress_length, BytesPerWord]

/-- C9: after `invoke` returns, the thread's frame and reference chain
equal their values at entry: the restore loop pops exactly the reference
nodes created during the call, and the frame field is written back from
the snapshot. -/
theorem invoke_restores_frame_and_references (s : VMThreadState)
    (newFrame : Nat) (newRefs : List Nat) :
    invokeBridge s newFrame newRefs = some s := by
  simp [invokeBridge, vmInvokeEffect, disposeUntil_append]

/-! ## First-match characterization of findExceptionHandler -/

theorem findExceptionHandler_cons (instOf : Nat → Bool) (offset : Nat)
    (g : NativeExceptionHandler) (rest : List NativeExceptionHandler) :
    findExceptionHandler instOf offset (g :: rest)
      = if handlerMatches instOf offset g then some g
        else findExceptionHandler instOf offset rest := by
  by_cases h1 : g.start ≤ biasedOffset offset ∧ biasedOffset offset < g.stop
  · by_cases h2 : g.catchType = 0 ∨ instOf g.catchType = true
    · rw [if_pos (show handlerMatches instOf offset g from ⟨h1, h2⟩)]
      simp only [findExceptionHandler, if_pos h1, if_pos h2]
    · rw [if_neg (show ¬ handlerMatches instOf offset g from fun hc => h2 hc.2)]
      simp only [findExceptionHandler, if_pos h1, if_neg h2]
  · rw [if_neg (show ¬ handlerMatches instOf offset g from fun hc => h1 hc.1)]
    simp only [findExceptionHandler, if_neg h1]

theorem findExceptionHandler_eq_none_iff (instOf : Nat → Bool) (offset : Nat)
    (table : List NativeExceptionHandler) :
    findExceptionHandler instOf offset table = none ↔
      ∀ g ∈ table, ¬ handlerMatches instOf offset g := by
  induction table with
  | nil => simp [findExceptionHandler]
  | cons g rest ih =>
    rw [findExceptionHandler_cons]
    by_cases h : handlerMatches instOf offset g
    · simp [h]
    · simp [h, ih]

theorem findExceptionHandler_eq_some_iff (instOf : Nat → Bool) (offset : Nat)
    (table : List NativeExceptionHandler) (h : NativeExceptionHandler) :
    findExceptionHandler instOf offset table = some h ↔
      ∃ pre post, table = pre ++ h :: post ∧ handlerMatches instOf offset h ∧
        ∀ g ∈ pre, ¬ handlerMatches instOf offset g := by
  induction table with
  | nil => simp [findExceptionHandler, List.nil_eq_append_iff]
  | cons g rest ih =>
    rw [findExceptionHandler_cons]
    by_cases hm : handlerMatches instOf offset g
    · rw [if_pos hm]
      constructor
      · intro heq
        injection heq with heq
        subst heq
        exact ⟨[], rest, rfl, hm, by simp⟩
      · rintro ⟨pre, post, hdec, hmh, hpre⟩
        cases pre with
        | nil =>
          simp only [List.nil_append, List.cons.injEq] at hdec
          rw [hdec.1]
        | cons a pre2 =>
          simp only [List.cons_append, List.cons.injEq] at hdec
          exact absurd (hdec.1 ▸ hm) (hpre a (by simp))
    · rw [if_neg hm, ih]
      constructor
      · rintro ⟨pre, post, hdec, hmh, hpre⟩
        refine ⟨g :: pre, post, by rw [hdec, List.cons_append], hmh, ?_⟩
        intro x hx
        rcases List.mem_cons.mp hx with h1 | h2
        · rw [h1]; exact hm
        · exact hpre x h2
      · rintro ⟨pre, post, hdec, hmh, hpre⟩
        cases pre with
        | nil =>
          simp only [List.nil_append, List.cons.injEq] at hdec
          exact absurd (hdec.1 ▸ hmh) hm
        | cons a pre2 =>
          simp only [List.cons_append, List.cons.injEq] at hdec
          exact ⟨pre2, post, hdec.2, hmh, fun x hx => hpre x (by simp [hx])⟩

/-- C7: `findExceptionHandler` returns a handler exactly when some entry
of the table, scanned in table order with the first matching entry
winning, satisfies the match condition — biased fault offset within
`[start, stop)` and catch type 0 or the pending exception an instance of
it — and returns 0 (`none`) exactly when no entry matches. -/
theorem findExceptionHandler_first_match (instOf : Nat → Bool) (offset : Nat)
    (table : List NativeExceptionHandler) :
    (∀ h, findExceptionHandler instOf offset table = some h ↔
      ∃ pre post, table = pre ++ h :: post ∧ handlerMatches instOf offset h ∧
        ∀ g ∈ pre, ¬ handlerMatches instOf offset g) ∧
    (findExceptionHandler instOf offset table = none ↔
      ∀ g ∈ table, ¬ handlerMatches instOf offset g) :=
  ⟨fun h => findExceptionHandler_eq_some_iff instOf offset table h,
   findExceptionHandler_eq_none_iff instOf offset table⟩

/-! ## Correctness of the bytecode-IP map and its binary search -/

theorem buildIpMap_key_lb (steps : List (Nat × Nat)) (ip0 off0 : Nat) :
    ∀ e ∈ buildIpMap steps ip0 off0, ip0 ≤ e.1 := by
  induction steps generalizing ip0 off0 with
  | nil => simp [buildIpMap]
  | cons p rest ih =>
    obtain ⟨isize, esize⟩ := p
    intro e he
    simp only [buildIpMap, List.mem_cons] at he
    rcases he with he | he
    · rw [he]
    · have := ih (ip0 + isize) (off0 + esize) e he
      omega

theorem buildIpMap_pairwise (steps : List (Nat × Nat)) (ip0 off0 : Nat)
    (h1 : ∀ p ∈ steps, 1 ≤ p.1) :
    List.Pairwise (fun a b : Nat × Nat => a.1 < b.1)
      (buildIpMap steps ip0 off0) := by
  induction steps generalizing ip0 off0 with
  | nil => simp [buildIpMap]
  | cons p rest ih =>
    obtain ⟨isize, esize⟩ := p
    have his : 1 ≤ isize := h1 (isize, esize) (by simp)
    simp only [buildIpMap]
    refine List.Pairwise.cons ?_
      (ih (ip0 + isize) (off0 + esize) (fun q hq => h1 q (by simp [hq])))
    intro e he
    have := buildIpMap_key_lb rest (ip0 + isize) (off0 + esize) e he
    simp only
    omega

theorem buildIpMap_off_lt (steps : List (Nat × Nat)) (ip0 off0 : Nat)
    (h2 : ∀ p ∈ steps, 1 ≤ p.2) :
    ∀ e ∈ buildIpMap steps ip0 off0,
      e.2 < off0 + (steps.map Prod.snd).sum := by
  induction steps generalizing ip0 off0 with
  | nil => simp [buildIpMap]
  | cons p rest ih =>
    obtain ⟨isize, esize⟩ := p
    have hes : 1 ≤ esize := h2 (isize, esize) (by simp)
    intro e he
    simp only [buildIpMap, List.mem_cons] at he
    simp only [List.map_cons, List.sum_cons]
    rcases he with he | he
    · rw [he]
      simp only
      omega
    · have := ih (ip0 + isize) (off0 + esize)
        (fun q hq => h2 q (by simp [hq])) e he
      omega

theorem bsearchLoop_finds (ips : List (Nat × Nat))
    (hp : List.Pairwise (fun a b : Nat × Nat => a.1 < b.1) ips) (i : Nat) :
    ∀ span bottom top, top - bottom = span → bottom ≤ i → i < top →
      top ≤ ips.length →
      bsearchLoop ips (ips.getD i (0, 0)).1 bottom top
        = some (ips.getD i (0, 0)).2 := by
  have hkey : ∀ a b : Nat, a < b → b < ips.length →
      (ips.getD a (0, 0)).1 < (ips.getD b (0, 0)).1 := by
    intro a b hab hb
    have ha : a < ips.length := lt_trans hab hb
    rw [List.getD_eq_getElem _ _ ha, List.getD_eq_getElem _ _ hb]
    exact List.pairwise_iff_getElem.mp hp a b ha hb hab
  intro span
  induction span using Nat.strong_induction_on with
  | _ span IH =>
    intro bottom top hspan hbi hit htop
    have hbt : bottom < top := Nat.lt_of_le_of_lt hbi hit
    rw [bsearchLoop]
    rw [if_neg (by omega)]
    have hmlt : bottom + (top - bottom) / 2 < top := by omega
    have hmlen : bottom + (top - bottom) / 2 < ips.length :=
      lt_of_lt_of_le hmlt htop
    have hilen : i < ips.length := lt_of_lt_of_le hit htop
    by_cases hlt : (ips.getD i (0, 0)).1
        < (ips.getD (bottom + (top - bottom) / 2) (0, 0)).1
    · rw [if_pos hlt]
      have him : i < bottom + (top - bottom) / 2 := by
        rcases Nat.lt_trichotomy i (bottom + (top - bottom) / 2) with h | h | h
        · exact h
        · rw [h] at hlt
          exact absurd hlt (lt_irrefl _)
        · exact absurd (hkey _ _ h hilen) (not_lt_of_gt hlt)
      exact IH (bottom + (top - bottom) / 2 - bottom) (by omega) bottom
        (bottom + (top - bottom) / 2) rfl hbi him (le_of_lt hmlen)
    · rw [if_neg hlt]
      by_cases hgt : (ips.getD (bottom + (top - bottom) / 2) (0, 0)).1
          < (ips.getD i (0, 0)).1
      · rw [if_pos hgt]
        have him : bottom + (top - bottom) / 2 < i := by
          rcases Nat.lt_trichotomy i (bottom + (top - bottom) / 2) with h | h | h
          · exact absurd (hkey _ _ h hmlen) (not_lt_of_gt hgt)
          · rw [h] at hgt
            exact absurd hgt (lt_irrefl _)
          · exact h
        exact IH (top - (bottom + (top - bottom) / 2 + 1)) (by omega)
          (bottom + (top - bottom) / 2 + 1) top rfl him hit htop
      · rw [if_neg hgt]
        have him : i = bottom + (top - bottom) / 2 := by
          rcases Nat.lt_trichotomy i (bottom + (top - bottom) / 2) with h | h | h
          · exact absurd (hkey _ _ h hmlen) hlt
          · exact h
          · exact absurd (hkey _ _ h hilen) hgt
        rw [him]

/-- C8: the bytecode-IP to machine-IP map built by the compile loop — one
entry per compiled instruction, each advancing the bytecode IP by the
instruction's size (at least one byte) and the code buffer by the bytes
the template emits (at least one) — has strictly increasing bytecode IPs,
and for every entry `machineIpForJavaIp` returns by binary search exactly
the machine offset recorded for that bytecode IP, an offset strictly
inside the emitted code. -/
theorem machineIpForJavaIp_correct (steps : List (Nat × Nat)) (ip0 off0 : Nat)
    (hins : ∀ p ∈ steps, 1 ≤ p.1) (hemit : ∀ p ∈ steps, 1 ≤ p.2) :
    List.Pairwise (fun a b : Nat × Nat => a.1 < b.1)
      (buildIpMap steps ip0 off0) ∧
    ∀ i, i < (buildIpMap steps ip0 off0).length →
      machineIpForJavaIp (buildIpMap steps ip0 off0)
          ((buildIpMap steps ip0 off0).getD i (0, 0)).1
        = some ((buildIpMap steps ip0 off0).getD i (0, 0)).2 ∧
      ((buildIpMap steps ip0 off0).getD i (0, 0)).2
        < off0 + (steps.map Prod.snd).sum := by
  have hp := buildIpMap_pairwise steps ip0 off0 hins
  refine ⟨hp, fun i hi => ⟨?_, ?_⟩⟩
  · exact bsearchLoop_finds (buildIpMap steps ip0 off0) hp i
      (buildIpMap steps ip0 off0).length 0 (buildIpMap steps ip0 off0).length
      rfl (Nat.zero_le _) hi le_rfl
  · have hmem : (buildIpMap steps ip0 off0).getD i (0, 0)
        ∈ buildIpMap steps ip0 off0 := by
      rw [List.getD_eq_getElem _ _ hi]
      exact List.getElem_mem hi
    exact buildIpMap_off_lt steps ip0 off0 hemit _ hmem

/-- C8 witness: the map for a three-instruction method (instruction sizes
1, 3, 1 bytes; emitted sizes 1, 2, 5 bytes) is strictly monotonic and
every lookup returns the recorded offset. -/
theorem machineIpForJavaIp_correct_witness :
    (∀ p ∈ [((1 : Nat), (1 : Nat)), (3, 2), (1, 5)], 1 ≤ p.1) ∧
    (List.Pairwise (fun a b : Nat × Nat => a.1 < b.1)
      (buildIpMap [((1 : Nat), (1 : Nat)), (3, 2), (1, 5)] 0 0) ∧
    ∀ i, i < (buildIpMap [((1 : Nat), (1 : Nat)), (3, 2), (1, 5)] 0 0).length →
      machineIpForJavaIp (buildIpMap [((1 : Nat), (1 : Nat)), (3, 2), (1, 5)] 0 0)
          ((buildIpMap [((1 : Nat), (1 : Nat)), (3, 2), (1, 5)] 0 0).getD i (0, 0)).1
        = some ((buildIpMap [((1 : Nat), (1 : Nat)), (3, 2), (1, 5)] 0 0).getD i (0, 0)).2 ∧
      ((buildIpMap [((1 : Nat), (1 : Nat)), (3, 2), (1, 5)] 0 0).getD i (0, 0)).2
        < 0 + ([((1 : Nat), (1 : Nat)), (3, 2), (1, 5)].map Prod.snd).sum) :=
  ⟨by decide,
   machineIpForJavaIp_correct [(1, 1), (3, 2), (1, 5)] 0 0 (by decide) (by decide)⟩

/-! ## Alignment of the aligned immediate load -/

theorem alignedMovPad_aligned (w : Nat) (hw : 0 < w) :
    ∀ fuel n, (w - (n + movImmHeaderLen w) % w) % w ≤ fuel →
      (alignedMovPad w fuel n + movImmHeaderLen w) % w = 0 := by
  intro fuel
  induction fuel with
  | zero =>
    intro n hneed
    by_cases h0 : (n + movImmHeaderLen w) % w = 0
    · simpa [alignedMovPad] using h0
    · exfalso
      have hr : (n + movImmHeaderLen w) % w < w := Nat.mod_lt _ hw
      have h1 : w - (n + movImmHeaderLen w) % w < w := by omega
      rw [Nat.mod_eq_of_lt h1] at hneed
      omega
  | succ fuel ih =>
    intro n hneed
    by_cases h0 : (n + movImmHeaderLen w) % w = 0
    · simp [alignedMovPad, h0]
    · have hstep : alignedMovPad w (fuel + 1) n = alignedMovPad w fuel (n + 1) := by
        simp [alignedMovPad, h0]
      rw [hstep]
      apply ih
      have hr : (n + movImmHeaderLen w) % w < w := Nat.mod_lt _ hw
      have hw2 : 2 ≤ w := by omega
      have hr1 : (n + 1 + movImmHeaderLen w) % w
          = ((n + movImmHeaderLen w) % w + 1) % w := by
        have harr : n + 1 + movImmHeaderLen w = n + movImmHeaderLen w + 1 := by
          omega
        rw [harr, Nat.add_mod, Nat.mod_eq_of_lt (show 1 < w by omega)]
      rw [hr1]
      by_cases htop : (n + movImmHeaderLen w) % w + 1 = w
      · rw [htop, Nat.mod_self]
        simp
      · have hlt : (n + movImmHeaderLen w) % w + 1 < w := by omega
        rw [Nat.mod_eq_of_lt hlt]
        have h2 : w - ((n + movImmHeaderLen w) % w + 1) < w := by omega
        rw [Nat.mod_eq_of_lt h2]
        have h3 : w - (n + movImmHeaderLen w) % w < w := by omega
        rw [Nat.mod_eq_of_lt h3] at hneed
        omega

theorem alignedMovImmediateOffset_aligned (w n : Nat) (hw : w = 4 ∨ w = 8) :
    alignedMovImmediateOffset w n % w = 0 := by
  have hw0 : 0 < w := by rcases hw with h | h <;> omega
  unfold alignedMovImmediateOffset
  apply alignedMovPad_aligned w hw0 w n
  have h2 : (w - (n + movImmHeaderLen w) % w) % w < w := Nat.mod_lt _ hw0
  omega

/-- C10: on both word sizes, the immediate field emitted by `alignedMov`
lands at a buffer offset that is a multiple of the word size, whatever the
code length was beforehand; consequently, in a code region whose base
address is word-aligned, the absolute address of that field is
word-aligned. The offset `updateCaller` patches is exactly the header
length of the reference `mov` (the immediate position), and `updateCaller`
writes only when the bytes before the saved return address equal the
freshly emitted mov-then-call reference sequence byte for byte. -/
theorem alignedMov_word_aligned_patch (w n base : Nat)
    (stubAddr newAddr caller : List Nat)
    (hw : w = 4 ∨ w = 8) (hbase : base % w = 0) (hlen : stubAddr.length = w) :
    alignedMovImmediateOffset w n % w = 0 ∧
    (base + alignedMovImmediateOffset w n) % w = 0 ∧
    (movImmBytes w stubAddr 0).length - w = movImmHeaderLen w ∧
    (updateCallerPatch w stubAddr newAddr caller ≠ none →
      caller = movImmBytes w stubAddr 0 ++ callRegBytes 0) := by
  have h1 := alignedMovImmediateOffset_aligned w n hw
  refine ⟨h1, ?_, ?_, ?_⟩
  · rw [Nat.add_mod, hbase, h1]
    simp
  · rcases hw with h | h <;>
      simp [h, movImmBytes, movImmHeaderLen, hlen]
  · intro hne
    by_cases heq : caller = movImmBytes w stubAddr 0 ++ callRegBytes 0
    · exact heq
    · exact absurd (by simp [updateCallerPatch, heq]) hne

/-- C10 witness: the alignment and patch-guard facts at word size 8, prior
code length 3, code base 16 and an eight-byte stub address. -/
theorem alignedMov_word_aligned_patch_witness :
    ((8 : Nat) = 4 ∨ (8 : Nat) = 8) ∧ (16 : Nat) % 8 = 0 ∧
    (List.replicate 8 (0 : Nat)).length = 8 ∧
    (alignedMovImmediateOffset 8 3 % 8 = 0 ∧
     (16 + alignedMovImmediateOffset 8 3) % 8 = 0 ∧
     (movImmBytes 8 (List.replicate 8 0) 0).length - 8 = movImmHeaderLen 8 ∧
     (updateCallerPatch 8 (List.replicate 8 0) (List.replicate 8 1) [] ≠ none →
       [] = movImmBytes 8 (List.replicate 8 0) 0 ++ callRegBytes 0)) :=
  ⟨by decide, by decide, by decide,
   alignedMov_word_aligned_patch 8 3 16 (List.replicate 8 0)
     (List.replicate 8 1) [] (by decide) (by decide) (by decide)⟩
